import Mathlib

/-!
Verification of the AgentCorPy orchestration core against its specification.

Shallow embedding of:
- `agentcorp/tasks.py` (Task status state machine, parent auto-completion),
- `agentcorp/memory.py` (Memory ledger: append/evict, token reconciliation, cost),
- `agentcorp/agent.py` (chat tool-call loop, task decomposition parser),
- `agentcorp/tools/filesystem/utils.py` (`_validate_path` working-dir confinement).

Python machine behavior is modelled with `Nat`/`Int`/`Rat` arithmetic; fallible
operations (the eviction loop's possible `IndexError`) return `Option`.
-/

/-! ### Task model (`agentcorp/tasks.py`) -/

/-- `TaskStatus` enum from `tasks.py`. -/
inductive TaskStatus where
  | pending
  | inProgress
  | completed
  | failed
deriving Repr, DecidableEq

/-- A single task record: `Task.__init__` fields (the tree structure is modelled
separately by `ParentTask`/`SubTask` below). -/
structure TaskRec where
  description : String
  status : TaskStatus
  result : Option String
  error : Option String
deriving Repr, DecidableEq

/-- `Task(description)`: initial status is `pending`, no result, no error. -/
def mkTask (description : String) : TaskRec :=
  { description := description, status := .pending, result := none, error := none }

/-- `Task.start`: unconditionally sets status to `in_progress`. -/
def TaskRec.start (t : TaskRec) : TaskRec :=
  { t with status := .inProgress }

/-- `Task.complete` on a task with no parent: unconditionally sets status to
`completed` and stores the result. -/
def TaskRec.complete (t : TaskRec) (result : Option String) : TaskRec :=
  { t with status := .completed, result := result }

/-- `Task.fail`: unconditionally sets status to `failed` and stores the error. -/
def TaskRec.fail (t : TaskRec) (error : String) : TaskRec :=
  { t with status := .failed, error := some error }

/-- One of the three status-mutating operations on a task. -/
inductive TaskOp where
  | start
  | complete (result : Option String)
  | fail (error : String)
deriving Repr

/-- Apply one operation to a task, exactly as the unguarded setters do. -/
def applyOp (t : TaskRec) : TaskOp → TaskRec
  | .start => t.start
  | .complete r => t.complete r
  | .fail e => t.fail e

/-- Apply a sequence of operations left to right. -/
def applyOps (t : TaskRec) : List TaskOp → TaskRec
  | [] => t
  | op :: ops => applyOps (applyOp t op) ops

/-- Progress rank of a status along pending → in_progress → {completed, failed}. -/
def statusRank : TaskStatus → Nat
  | .pending => 0
  | .inProgress => 1
  | .completed => 2
  | .failed => 2

/-- An operation fired from its intended source status, per the spec state machine
(`start` from pending; `complete` from pending or in_progress, covering automatic
parent-completion; `fail` from in_progress). -/
def opOk (s : TaskStatus) : TaskOp → Prop
  | .start => s = .pending
  | .complete _ => s = .pending ∨ s = .inProgress
  | .fail _ => s = .inProgress

/-- A sequence of operations each fired from its intended source status. -/
def ValidSeq : TaskRec → List TaskOp → Prop
  | _, [] => True
  | t, op :: ops => opOk t.status op ∧ ValidSeq (applyOp t op) ops

/-- A subtask of a complex task (leaf of the two-level tree that
`add_complex_task` builds). -/
structure SubTask where
  description : String
  status : TaskStatus
  result : Option String
deriving Repr, DecidableEq

/-- A (root) task together with its owned subtasks. -/
structure ParentTask where
  description : String
  status : TaskStatus
  result : Option String
  subtasks : List SubTask
deriving Repr, DecidableEq

/-- `Task.complete` on a subtask: set status `completed` and store the result. -/
def subComplete (s : SubTask) (r : Option String) : SubTask :=
  { s with status := .completed, result := r }

/-- `subtask.complete(r)` for the child at index `i`, followed by the parent's
`_check_completion`: if all subtasks (including the just-completed child) are
`completed`, the parent's `complete()` runs, setting its status to `completed`
and its result to `None`. -/
def completeChild (p : ParentTask) (i : Nat) (r : Option String) : ParentTask :=
  let subs :=
    match p.subtasks.get? i with
    | some s => p.subtasks.set i (subComplete s r)
    | none => p.subtasks
  if subs.all (fun s => s.status == .completed) then
    { p with subtasks := subs, status := .completed, result := none }
  else
    { p with subtasks := subs }

/-- Fold a sequence of child completions (index, result) over a parent task. -/
def completeChildren (p : ParentTask) : List (Nat × Option String) → ParentTask
  | [] => p
  | (i, r) :: rest => completeChildren (completeChild p i r) rest

/-- The effect of a sequence of child completions on the subtask list alone. -/
def markCompleted (subs : List SubTask) : List (Nat × Option String) → List SubTask
  | [] => subs
  | (i, r) :: rest =>
    markCompleted
      (match subs.get? i with
       | some s => subs.set i (subComplete s r)
       | none => subs)
      rest

/-- `TaskManager.add_task`: a flat pending task with no subtasks. -/
def mkFlatTask (description : String) : ParentTask :=
  { description := description, status := .pending, result := none, subtasks := [] }

/-- `TaskManager.add_complex_task`: a pending task with one pending subtask per
description, in order. -/
def mkComplexTask (description : String) (subDescs : List String) : ParentTask :=
  { description := description, status := .pending, result := none,
    subtasks := subDescs.map (fun d => { description := d, status := .pending, result := none }) }

/-! ### Memory ledger model (`agentcorp/memory.py`, `agentcorp/models.py`) -/

/-- A model-issued tool-call request: the provider round-trips it as
`{id, function: {name, arguments}}`. -/
structure ToolCall where
  id : Option String
  name : String
  arguments : String
deriving Repr, DecidableEq

/-- `Message` from `providers/base.py`: role, content, tool calls, tool-call id,
task id (initialized `None`), actual token counters (initialized 0), plus the
`input_tokens_estimate` and `input_tokens_total` fields that `memory.py` sets. -/
structure Msg where
  role : String
  content : String
  toolCalls : List ToolCall
  toolCallId : Option String
  taskId : Option String
  inputTokens : Int
  outputTokens : Int
  inputTokensEstimate : Nat
  inputTokensTotal : Int
deriving Repr, DecidableEq

/-- Modelled from the spec: the `ProviderResponse` record of §6's provider
contract, `{message, input_tokens, output_tokens, function_calls}`. It is
imported from `agentcorp/models.py` by `memory.py` and the provider adapters,
but its class body is not present under src/. -/
structure ProviderResponse where
  message : String
  inputTokens : Int
  outputTokens : Int
  functionCalls : List ToolCall
deriving Repr, DecidableEq

/-- A row of the static pricing table in `models.py`. -/
structure ModelInfo where
  inputCost : ℚ
  outputCost : ℚ
  contextSize : Nat
deriving Repr, DecidableEq

/-- The `models` table of `models.py`; `get_model_info` raises `ValueError` for
an unknown provider or model, modelled as `none`. -/
def getModelInfo (provider model : String) : Option ModelInfo :=
  if provider = "openai" then
    if model = "gpt-3.5-turbo" then some ⟨1.5, 2.0, 16385⟩
    else if model = "gpt-4" then some ⟨30.0, 60.0, 8192⟩
    else if model = "gpt-4-turbo" then some ⟨10.0, 30.0, 128000⟩
    else none
  else if provider = "anthropic" then
    if model = "claude-3-haiku" then some ⟨0.25, 1.25, 200000⟩
    else if model = "claude-3-sonnet" then some ⟨3.0, 15.0, 200000⟩
    else if model = "claude-3-opus" then some ⟨15.0, 75.0, 200000⟩
    else none
  else if provider = "xai" then
    if model = "grok-4-fast-reasoning" then some ⟨0.20, 0.50, 2000000⟩
    else if model = "grok-code-fast-1" then some ⟨0.20, 1.50, 256000⟩
    else none
  else none

/-- The `Memory` ledger state: message history, caps resolved from the pricing
table, and the running actual token totals. -/
structure Memory where
  messages : List Msg
  maxMessages : Nat
  inputCostPerMillion : ℚ
  outputCostPerMillion : ℚ
  maxTokens : Nat
  totalInputTokens : Int
  totalOutputTokens : Int
deriving Repr, DecidableEq

/-- `Memory.__init__`: resolve pricing and context size for the provider/model;
unknown provider or model is a fatal configuration error (`none`). -/
def mkMemory (maxMessages : Nat) (provider model : String) : Option Memory :=
  (getModelInfo provider model).map fun mi =>
    { messages := [], maxMessages := maxMessages,
      inputCostPerMillion := mi.inputCost, outputCostPerMillion := mi.outputCost,
      maxTokens := mi.contextSize, totalInputTokens := 0, totalOutputTokens := 0 }

/-- The pruning loop of `Memory.add_message`: while the message count exceeds
`max_messages` or the running total plus the new message's estimate exceeds
`max_tokens`, pop the front message and decrement the running total by its
recorded actual `input_tokens`. Popping an empty list is Python's `IndexError`,
modelled as `none`. `estNew` stays fixed: the loop keeps reading the (possibly
already evicted) new message's estimate. -/
def evictLoop (maxM maxT estNew : Nat) : List Msg → Int → Option (List Msg × Int)
  | [], total =>
    if maxM < ([] : List Msg).length ∨ (maxT : Int) < total + (estNew : Int) then none
    else some ([], total)
  | m :: rest, total =>
    if maxM < (m :: rest).length ∨ (maxT : Int) < total + (estNew : Int) then
      evictLoop maxM maxT estNew rest (total - m.inputTokens)
    else some (m :: rest, total)

/-- `Memory.add_message`: build the message (actual token counters 0, estimate
computed by the tokenizer abstracted as `est`), append it at the end, then run
the pruning loop. Returns the updated ledger and the new message object, or
`none` when the loop raises. -/
def Memory.addMessage (est : String → List ToolCall → Nat) (mem : Memory)
    (role content : String) (toolCalls : List ToolCall)
    (toolCallId : Option String) (taskId : Option String) : Option (Memory × Msg) :=
  let msg : Msg :=
    { role := role, content := content, toolCalls := toolCalls,
      toolCallId := toolCallId, taskId := taskId,
      inputTokens := 0, outputTokens := 0,
      inputTokensEstimate := est content toolCalls, inputTokensTotal := 0 }
  match evictLoop mem.maxMessages mem.maxTokens msg.inputTokensEstimate
      (mem.messages ++ [msg]) mem.totalInputTokens with
  | none => none
  | some (msgs, total) =>
      some ({ mem with messages := msgs, totalInputTokens := total }, msg)

/-- `Memory.add_response_message`: add via `add_message`, then reconcile against
the provider's actual counts: `input_tokens_total := response.input_tokens`,
`input_tokens := response.input_tokens - total_input_tokens` (the running total
as it stands after the append's evictions), advance `total_input_tokens` by the
full reported value and `total_output_tokens` by `response.output_tokens`. The
message object is mutated in place in Python; here the history's last element
(the just-appended message, whenever the history is non-empty) is replaced. -/
def Memory.addResponseMessage (est : String → List ToolCall → Nat) (mem : Memory)
    (role : String) (response : ProviderResponse)
    (toolCallId : Option String) (taskId : Option String) : Option (Memory × Msg) :=
  match Memory.addMessage est mem role response.message response.functionCalls toolCallId taskId with
  | none => none
  | some (mem1, msg) =>
      let msg' : Msg :=
        { msg with inputTokensTotal := response.inputTokens,
                   inputTokens := response.inputTokens - mem1.totalInputTokens,
                   outputTokens := response.outputTokens }
      let newMessages :=
        if mem1.messages = [] then mem1.messages else mem1.messages.dropLast ++ [msg']
      let mem2 : Memory :=
        { mem1 with messages := newMessages,
                    totalInputTokens := mem1.totalInputTokens + response.inputTokens,
                    totalOutputTokens := mem1.totalOutputTokens + response.outputTokens }
      some (mem2, msg')

/-- `Memory.get_total_cost`. -/
def Memory.getTotalCost (mem : Memory) : ℚ :=
  (mem.totalInputTokens : ℚ) / 1000000 * mem.inputCostPerMillion
    + (mem.totalOutputTokens : ℚ) / 1000000 * mem.outputCostPerMillion

/-- `Memory.get_message_cost`: per-message cost from the stored marginal
`input_tokens` and `output_tokens`. -/
def Memory.getMessageCost (mem : Memory) (m : Msg) : ℚ :=
  (m.inputTokens : ℚ) / 1000000 * mem.inputCostPerMillion
    + (m.outputTokens : ℚ) / 1000000 * mem.outputCostPerMillion

/-- `Memory.get_messages_for_task`: every message tagged with `taskId` plus
every system message. -/
def Memory.getMessagesForTask (mem : Memory) (taskId : String) : List Msg :=
  mem.messages.filter (fun m => m.taskId == some taskId || m.role == "system")

/-! ### Agent conversational loop (`agentcorp/agent.py`) -/

/-- The agent's bound tool subset, as an association list from tool name to the
tool's behavior. A tool's behavior (argument parsing, execution under the
context, and `str(...)` of the result) is abstracted as a function from the raw
arguments JSON string to the stringified result. -/
def lookupTool (tools : List (String × (String → String))) (name : String) :
    Option (String → String) :=
  match tools.find? (fun t => t.1 == name) with
  | some t => some t.2
  | none => none

/-- Dispatch one requested tool call, as the loop body of `Agent.chat` does:
look the function name up in the bound subset; if found, execute and stringify;
if not found, `result = None`, so the stringified result is `"None"`. -/
def dispatchCall (tools : List (String × (String → String))) (c : ToolCall) : String :=
  match lookupTool tools c.name with
  | some f => f c.arguments
  | none => "None"

/-- Process the requested calls of one round in request order: dispatch each
call and (when recording) append a `tool`-role message carrying the stringified
result and the originating call id. -/
def processToolCalls (est : String → List ToolCall → Nat)
    (tools : List (String × (String → String))) (addToMemory : Bool) :
    Memory → List ToolCall → Option Memory
  | mem, [] => some mem
  | mem, c :: cs =>
    let result := dispatchCall tools c
    if addToMemory then
      match Memory.addMessage est mem "tool" result [] c.id none with
      | none => none
      | some (mem1, _) => processToolCalls est tools addToMemory mem1 cs
    else processToolCalls est tools addToMemory mem cs

/-- The `while True` loop of `Agent.chat` when tools apply. The provider is
modelled by a script: the successive `chat_with_tools` responses it returns.
An exhausted script is `none` (the model stops answering; fuel for the loop).
Each round records the assistant turn, returns the reply when no calls were
requested, and otherwise dispatches every call and loops. -/
def chatLoop (est : String → List ToolCall → Nat)
    (tools : List (String × (String → String))) (addToMemory : Bool) :
    List ProviderResponse → Memory → Option (String × Memory)
  | [], _ => none
  | resp :: rest, mem =>
    let afterAssistant : Option Memory :=
      if addToMemory then
        (Memory.addResponseMessage est mem "assistant" resp none none).map Prod.fst
      else some mem
    match afterAssistant with
    | none => none
    | some mem1 =>
      if resp.functionCalls = [] then some (resp.message, mem1)
      else
        match processToolCalls est tools addToMemory mem1 resp.functionCalls with
        | none => none
        | some mem2 => chatLoop est tools addToMemory rest mem2

/-- `Agent.chat(user_message, add_to_memory)`: append the user message when
recording; if the bound tool subset is non-empty and the provider supports
tools, enter the tool-call loop, otherwise do a single non-tool round. -/
def chat (est : String → List ToolCall → Nat)
    (tools : List (String × (String → String))) (supportsTools : Bool)
    (script : List ProviderResponse) (mem : Memory) (userMessage : String)
    (addToMemory : Bool) : Option (String × Memory) :=
  let afterUser : Option Memory :=
    if addToMemory then
      (Memory.addMessage est mem "user" userMessage [] none none).map Prod.fst
    else some mem
  match afterUser with
  | none => none
  | some mem1 =>
    if !tools.isEmpty && supportsTools then
      chatLoop est tools addToMemory script mem1
    else
      match script with
      | [] => none
      | resp :: _ =>
        if addToMemory then
          (Memory.addResponseMessage est mem1 "assistant" resp none none).map
            (fun p => (resp.message, p.1))
        else some (resp.message, mem1)

/-- The previous-results block of `Task.execute`'s prompt:
`"\n".join(f"- {description}: {result}")`, or `"None"` when empty. -/
def previousResultsStr (previousResults : List (String × String)) : String :=
  match previousResults with
  | [] => "None"
  | _ => String.intercalate "\n"
      (previousResults.map (fun pr => "- " ++ pr.1 ++ ": " ++ pr.2))

/-- The prompt `Task.execute` synthesizes from the overall task description,
the previous results, and the current task description. -/
def taskExecutePrompt (overallDesc : String) (previousResults : List (String × String))
    (desc : String) : String :=
  "You are working on the following overall task: " ++ overallDesc
    ++ "\n\nPrevious steps completed:\n" ++ previousResultsStr previousResults
    ++ "\n\nCurrent task to complete: " ++ desc
    ++ "\n\nUse your available tools and knowledge to complete this task. Provide the result or confirmation when done."

/-- `Task.execute`: synthesize the prompt and send it through `Agent.chat` with
memory recording enabled. Note that no task id is passed to the chat. -/
def taskExecute (est : String → List ToolCall → Nat)
    (tools : List (String × (String → String))) (supportsTools : Bool)
    (script : List ProviderResponse) (overallDesc : String)
    (previousResults : List (String × String)) (desc : String) (mem : Memory) :
    Option (String × Memory) :=
  chat est tools supportsTools script mem
    (taskExecutePrompt overallDesc previousResults desc) true

/-! ### Task decomposition parser (`Agent.decompose_task`) -/

/-- Python `str.strip()`: drop whitespace from both ends (character-level
implementation, so that the kernel can evaluate it). -/
def pyStrip (s : String) : String :=
  String.mk (((s.toList.dropWhile Char.isWhitespace).reverse.dropWhile
    Char.isWhitespace).reverse)

/-- Python `str.split('\n')` (character-level implementation). -/
def pySplitLines (s : String) : List String :=
  (s.toList.splitOn '\n').map String.mk

/-- Python `str.startswith(pre)` (character-level implementation). -/
def strStartsWith (s pre : String) : Bool :=
  pre.toList.isPrefixOf s.toList

/-- Python `line[0].isdigit()` guarded by non-emptiness. -/
def headIsDigit (s : String) : Bool :=
  match s.toList with
  | [] => false
  | c :: _ => c.isDigit

/-- Python `line.split('.', 1)[-1]`: everything after the first `'.'`, or the
whole string when it contains none. -/
def afterFirstDot (s : String) : String :=
  match s.toList.dropWhile (fun ch => ch ≠ '.') with
  | [] => s
  | _ :: rest => String.mk rest

/-- The loop body of `Agent.decompose_task`'s parser: trim the line; keep it
iff it starts with a digit (drop the leading numbering up to the first dot) or
with a dash (drop the dash), and is non-empty after the final trim. -/
def parseSubtasksStep (subtasks : List String) (rawLine : String) : List String :=
  let line := pyStrip rawLine
  if line ≠ "" ∧ (headIsDigit line = true ∨ strStartsWith line "-" = true) then
    let stripped :=
      if headIsDigit line then pyStrip (afterFirstDot line)
      else pyStrip (String.mk (line.toList.drop 1))
    if stripped ≠ "" then subtasks ++ [stripped] else subtasks
  else subtasks

/-- The line-parsing loop of `Agent.decompose_task`: split the stripped reply
on newlines and accumulate accepted lines in order. -/
def parseSubtasks (response : String) : List String :=
  (pySplitLines (pyStrip response)).foldl parseSubtasksStep []

/-- A second definition following the spec's words, for comparison with the
parsing loop: a trimmed line is accepted as a subtask iff it starts with a
digit (stripping the leading "N." numbering) or with "-" (stripping the dash)
and is non-empty after stripping. -/
def acceptedLineSpec (rawLine : String) : Option String :=
  let line := pyStrip rawLine
  if line ≠ "" ∧ (headIsDigit line = true ∨ strStartsWith line "-" = true) then
    let stripped :=
      if headIsDigit line then pyStrip (afterFirstDot line)
      else pyStrip (String.mk (line.toList.drop 1))
    if stripped ≠ "" then some stripped else none
  else none

/-- `Agent.decompose_task`, after the reply is captured: parse; with at least
one subtask create a complex task with those descriptions in parsed order,
otherwise fall back to a single flat task. -/
def decomposeTask (taskDescription response : String) : ParentTask :=
  let subtasks := parseSubtasks response
  if subtasks ≠ [] then mkComplexTask taskDescription subtasks
  else mkFlatTask taskDescription

/-! ### Working-directory confinement (`tools/filesystem/utils.py`) -/

/-- Rendering of a resolved absolute path (its components, free of `..` and
symlinks) as `str(Path(...))` renders it. -/
def renderPath (comps : List String) : String :=
  String.mk ('/' :: List.intercalate ['/'] (comps.map String.toList))

/-- The confinement check of `_validate_path` for a configured (non-empty)
`workingdir`, with both paths already resolved to absolute component lists:
accept iff `str(file_full_path).startswith(str(working_dir_path))`, otherwise
reject with the "Access denied" message. -/
def validatePath (workingdir fileResolved : List String) : Bool × String :=
  if strStartsWith (renderPath fileResolved) (renderPath workingdir) then
    (true, "")
  else
    (false,
      "Access denied: " ++ renderPath fileResolved
        ++ " is outside the allowed working directory " ++ renderPath workingdir)

/-! ### Concrete fixtures used by witnesses and counterexamples -/

/-- Token estimator that always returns 0 (an abstract tokenizer outcome). -/
def est0 : String → List ToolCall → Nat := fun _ _ => 0

/-- Token estimator that always returns 1. -/
def estOne : String → List ToolCall → Nat := fun _ _ => 1

/-- Token estimator that always returns 20000 (a message larger than the
gpt-3.5-turbo context of 16385 tokens). -/
def estBig : String → List ToolCall → Nat := fun _ _ => 20000

/-- A fresh ledger for provider "openai", model "gpt-3.5-turbo": costs 1.5/2.0
per million, context size 16385 (see `getModelInfo`). -/
def memGpt35 : Memory :=
  { messages := [], maxMessages := 100, inputCostPerMillion := 1.5,
    outputCostPerMillion := 2.0, maxTokens := 16385,
    totalInputTokens := 0, totalOutputTokens := 0 }

/-- The same ledger with `max_messages = 1`. -/
def memM1 : Memory := { memGpt35 with maxMessages := 1 }

/-- Placeholder pair for reading off concrete results of `Option`-valued runs. -/
def dummyPair : Memory × Msg :=
  ⟨{ messages := [], maxMessages := 0, inputCostPerMillion := 0,
     outputCostPerMillion := 0, maxTokens := 0, totalInputTokens := 0,
     totalOutputTokens := 0 },
   { role := "", content := "", toolCalls := [], toolCallId := none,
     taskId := none, inputTokens := 0, outputTokens := 0,
     inputTokensEstimate := 0, inputTokensTotal := 0 }⟩

/-- A provider response reporting 10 actual input tokens. -/
def respTen : ProviderResponse := ⟨"alpha", 10, 0, []⟩

/-- A provider response reporting 25 actual input tokens. -/
def respTwentyFive : ProviderResponse := ⟨"beta", 25, 0, []⟩

/-- A provider response reporting 4 actual input tokens (fewer than
`respTen`). -/
def respFour : ProviderResponse := ⟨"gamma", 4, 0, []⟩

/-- A complex demo task with three pending subtasks. -/
def pDemo : ParentTask :=
  mkComplexTask "write the report" ["gather data", "draft text", "polish wording"]

/-- Completing the three subtasks of `pDemo` in definition order. -/
def orderDemo : List (Nat × Option String) :=
  [(0, some "data gathered"), (1, some "text drafted"), (2, some "wording polished")]

/-- A proper prefix of `orderDemo`: the first two completions only. -/
def preDemo : List (Nat × Option String) :=
  [(0, some "data gathered"), (1, some "text drafted")]

/-- An already-finalized message whose actual `input_tokens` is 7. -/
def msgSeven : Msg :=
  { role := "assistant", content := "earlier reply", toolCalls := [], toolCallId := none,
    taskId := none, inputTokens := 7, outputTokens := 2, inputTokensEstimate := 3,
    inputTokensTotal := 7 }

/-- A message that was never finalized: actual `input_tokens` still 0. -/
def msgZero : Msg :=
  { role := "user", content := "later question", toolCalls := [], toolCallId := none,
    taskId := none, inputTokens := 0, outputTokens := 0, inputTokensEstimate := 2,
    inputTokensTotal := 0 }

/-- A gpt-3.5-turbo ledger holding two messages with `max_messages = 2`, so the
next append must evict from the front. -/
def memW : Memory :=
  { messages := [msgSeven, msgZero], maxMessages := 2, inputCostPerMillion := 1.5,
    outputCostPerMillion := 2.0, maxTokens := 16385, totalInputTokens := 7,
    totalOutputTokens := 2 }

/-- The run of `add_message` on `memW` used by the C3 witness. -/
def c3run : Option (Memory × Msg) :=
  Memory.addMessage estOne memW "user" "hi" [] none none

/-- The ledger produced by `c3run`. -/
def c3memAfter : Memory := (c3run.getD dummyPair).1

/-- The message produced by `c3run`. -/
def c3msgAfter : Msg := (c3run.getD dummyPair).2

/-- First `add_response_message` call of the C4 counterexample run. -/
def c4run1 : Option (Memory × Msg) :=
  Memory.addResponseMessage est0 memM1 "assistant" respTen none none

/-- Ledger after the first C4 call: one message, `total_input_tokens = 10`. -/
def c4mem1 : Memory := (c4run1.getD dummyPair).1

/-- Second `add_response_message` call of the C4 counterexample run: appending
under `max_messages = 1` evicts the first (finalized) message. -/
def c4run2 : Option (Memory × Msg) :=
  Memory.addResponseMessage est0 c4mem1 "assistant" respTwentyFive none none

/-- The plain `add_message` stage inside the C4 witness call. -/
def w4add : Option (Memory × Msg) :=
  Memory.addMessage est0 memGpt35 "assistant" respTen.message respTen.functionCalls none none

/-- Intermediate ledger of the C4 witness call. -/
def w4mem1 : Memory := (w4add.getD dummyPair).1

/-- Intermediate message of the C4 witness call. -/
def w4msg1 : Msg := (w4add.getD dummyPair).2

/-- The C4 witness call itself. -/
def w4resp : Option (Memory × Msg) :=
  Memory.addResponseMessage est0 memGpt35 "assistant" respTen none none

/-- Final ledger of the C4 witness call. -/
def w4mem2 : Memory := (w4resp.getD dummyPair).1

/-- Final message of the C4 witness call. -/
def w4msg2 : Msg := (w4resp.getD dummyPair).2

/-- A one-round provider script: a plain reply, no tool calls. -/
def scriptDone : List ProviderResponse := [⟨"done", 5, 3, []⟩]

/-- The C2 counterexample run: executing a task on a fresh ledger. -/
def c2run : Option (String × Memory) :=
  taskExecute est0 [] true scriptDone "Overall goal" [] "Do the thing" memGpt35

/-- A chat run on a fresh ledger used by the C2 witness. -/
def c2chatRun : Option (String × Memory) :=
  chat est0 [] true scriptDone memGpt35 "hi" true

/-- Placeholder reply/ledger pair. -/
def dummyRun : String × Memory := ("", dummyPair.1)

/-- The ledger produced by `c2chatRun`. -/
def c2memAfter : Memory := (c2chatRun.getD dummyRun).2

/-- A bound tool subset with a single echo tool. -/
def demoTools : List (String × (String → String)) := [("echo", fun s => s)]

/-- A requested call whose function name is absent from `demoTools`. -/
def missingCall : ToolCall := ⟨some "call-1", "web_search", "\x7b\x7d"⟩

/-- A requested call that resolves in `demoTools`. -/
def foundCallA : ToolCall := ⟨some "call-0", "echo", "hi"⟩

/-- Another requested call that resolves in `demoTools`. -/
def foundCallB : ToolCall := ⟨none, "echo", "bye"⟩

/-- The message object `add_message` constructs before appending. -/
def newMsg (est : String → List ToolCall → Nat) (role content : String)
    (toolCalls : List ToolCall) (toolCallId taskId : Option String) : Msg :=
  { role := role, content := content, toolCalls := toolCalls, toolCallId := toolCallId,
    taskId := taskId, inputTokens := 0, outputTokens := 0,
    inputTokensEstimate := est content toolCalls, inputTokensTotal := 0 }

/-- The C10 run: two `add_response_message` calls on a fresh ledger, the second
response reporting strictly fewer input tokens (4) than the first (10). -/
def c10run : Option (Memory × Msg) :=
  (Memory.addResponseMessage est0 memGpt35 "assistant" respTen none none).bind
    (fun p => Memory.addResponseMessage est0 p.1 "assistant" respFour none none)

/-- The ledger produced by `c10run`. -/
def c10mem : Memory := (c10run.getD dummyPair).1

/-- The second message produced by `c10run`. -/
def c10msg : Msg := (c10run.getD dummyPair).2

/-! ### Lemmas about the task state machine -/

lemma statusRank_le_two (s : TaskStatus) : statusRank s ≤ 2 := by
  cases s <;> simp [statusRank]

lemma statusRank_le_applyOp (t : TaskRec) (op : TaskOp) (h : opOk t.status op) :
    statusRank t.status ≤ statusRank (applyOp t op).status := by
  cases op with
  | start =>
      have hs : t.status = .pending := h
      simp [applyOp, TaskRec.start, hs, statusRank]
  | complete r =>
      have : statusRank (applyOp t (.complete r)).status = 2 := by
        simp [applyOp, TaskRec.complete, statusRank]
      rw [this]; exact statusRank_le_two _
  | fail e =>
      have : statusRank (applyOp t (.fail e)).status = 2 := by
        simp [applyOp, TaskRec.fail, statusRank]
      rw [this]; exact statusRank_le_two _

lemma opOk_not_completed (t : TaskRec) (op : TaskOp) (h : opOk t.status op) :
    t.status ≠ .completed := by
  intro hc
  cases op <;> (rw [hc] at h; simp [opOk] at h)

/-! ### Lemmas about parent auto-completion -/

lemma markCompleted_cons (subs : List SubTask) (i : Nat) (r : Option String)
    (rest : List (Nat × Option String)) :
    markCompleted subs ((i, r) :: rest) =
      markCompleted
        (match subs.get? i with
         | some s => subs.set i (subComplete s r)
         | none => subs) rest := rfl

lemma completeChild_subtasks (p : ParentTask) (i : Nat) (r : Option String) :
    (completeChild p i r).subtasks =
      (match p.subtasks.get? i with
       | some s => p.subtasks.set i (subComplete s r)
       | none => p.subtasks) := by
  simp only [completeChild]
  split <;> rfl

lemma markCompleted_all_of_all (order : List (Nat × Option String)) :
    ∀ subs : List SubTask, subs.all (fun s => s.status == .completed) = true →
      (markCompleted subs order).all (fun s => s.status == .completed) = true := by
  induction order with
  | nil => intro subs h; exact h
  | cons x rest ih =>
      intro subs h
      obtain ⟨i, r⟩ := x
      rw [markCompleted_cons]
      apply ih
      split
      · rw [List.all_eq_true] at h ⊢
        intro s hs
        rcases List.mem_or_eq_of_mem_set hs with hmem | heq
        · exact h s hmem
        · subst heq; simp [subComplete]
      · exact h

lemma completeChildren_cons (p : ParentTask) (i : Nat) (r : Option String)
    (rest : List (Nat × Option String)) :
    completeChildren p ((i, r) :: rest) = completeChildren (completeChild p i r) rest := rfl

lemma completeChildren_subtasks (order : List (Nat × Option String)) :
    ∀ p : ParentTask, (completeChildren p order).subtasks = markCompleted p.subtasks order := by
  induction order with
  | nil => intro p; rfl
  | cons x rest ih =>
      intro p
      obtain ⟨i, r⟩ := x
      rw [completeChildren_cons, ih, markCompleted_cons, completeChild_subtasks]

lemma completeChild_status (p : ParentTask) (i : Nat) (r : Option String) :
    (completeChild p i r).status =
      if (match p.subtasks.get? i with
          | some s => p.subtasks.set i (subComplete s r)
          | none => p.subtasks).all (fun s => s.status == TaskStatus.completed)
      then TaskStatus.completed else p.status := by
  simp only [completeChild]
  split <;> rfl

lemma completeChildren_status (order : List (Nat × Option String)) :
    ∀ p : ParentTask, (completeChildren p order).status =
      if order ≠ [] ∧
          (markCompleted p.subtasks order).all (fun s => s.status == TaskStatus.completed) = true
      then TaskStatus.completed else p.status := by
  induction order with
  | nil => intro p; simp [completeChildren, markCompleted]
  | cons x rest ih =>
      intro p
      obtain ⟨i, r⟩ := x
      rw [completeChildren_cons, ih, markCompleted_cons, completeChild_subtasks,
        completeChild_status]
      by_cases hQ :
          (markCompleted
            (match p.subtasks.get? i with
             | some s => p.subtasks.set i (subComplete s r)
             | none => p.subtasks) rest).all (fun s => s.status == TaskStatus.completed) = true
      · conv_rhs => rw [if_pos (And.intro (List.cons_ne_nil (i, r) rest) hQ)]
        by_cases hrest : rest = []
        · subst hrest
          rw [if_neg (fun h => h.1 rfl)]
          have hS :
              (match p.subtasks.get? i with
               | some s => p.subtasks.set i (subComplete s r)
               | none => p.subtasks).all (fun s => s.status == TaskStatus.completed) = true := hQ
          rw [if_pos hS]
        · rw [if_pos (And.intro hrest hQ)]
      · conv_rhs => rw [if_neg (fun h => hQ h.2)]
        rw [if_neg (fun h => hQ h.2)]
        have hS :
            ¬ ((match p.subtasks.get? i with
                | some s => p.subtasks.set i (subComplete s r)
                | none => p.subtasks).all (fun s => s.status == TaskStatus.completed) = true) :=
          fun h => hQ (markCompleted_all_of_all rest _ h)
        rw [if_neg hS]

lemma markCompleted_length (order : List (Nat × Option String)) :
    ∀ subs : List SubTask, (markCompleted subs order).length = subs.length := by
  induction order with
  | nil => intro subs; rfl
  | cons x rest ih =>
      intro subs
      obtain ⟨i, r⟩ := x
      rw [markCompleted_cons, ih]
      split <;> simp

lemma markCompleted_get_not_mem (order : List (Nat × Option String)) :
    ∀ (subs : List SubTask) (j : Nat), j ∉ order.map Prod.fst →
      (markCompleted subs order)[j]? = subs[j]? := by
  induction order with
  | nil => intro subs j _; rfl
  | cons x rest ih =>
      intro subs j hj
      obtain ⟨i, r⟩ := x
      simp only [List.map_cons, List.mem_cons, not_or] at hj
      rw [markCompleted_cons, ih _ _ hj.2]
      split
      · exact List.getElem?_set_ne (fun h => hj.1 h.symm)
      · rfl

lemma markCompleted_keeps_completed (order : List (Nat × Option String)) :
    ∀ (subs : List SubTask) (j : Nat) (s : SubTask), subs[j]? = some s →
      s.status = TaskStatus.completed →
      ∃ s', (markCompleted subs order)[j]? = some s' ∧ s'.status = TaskStatus.completed := by
  induction order with
  | nil => intro subs j s hget hc; exact ⟨s, hget, hc⟩
  | cons x rest ih =>
      intro subs j s hget hc
      obtain ⟨i, r⟩ := x
      rw [markCompleted_cons]
      split
      · next t heq =>
          by_cases hij : i = j
          · subst hij
            have hlen : i < subs.length := by
              by_contra hlt
              rw [List.getElem?_eq_none (Nat.le_of_not_lt hlt)] at hget
              exact Option.noConfusion hget
            exact ih _ i (subComplete t r)
              (by rw [List.getElem?_set_eq_of_lt _ hlen]) (by simp [subComplete])
          · exact ih _ j s (by rw [List.getElem?_set_ne hij]; exact hget) hc
      · exact ih _ j s hget hc

lemma markCompleted_sets_completed (order : List (Nat × Option String)) :
    ∀ (subs : List SubTask) (j : Nat), j < subs.length → j ∈ order.map Prod.fst →
      ∃ s', (markCompleted subs order)[j]? = some s' ∧ s'.status = TaskStatus.completed := by
  induction order with
  | nil => intro subs j _ hmem; simp at hmem
  | cons x rest ih =>
      intro subs j hlt hmem
      obtain ⟨i, r⟩ := x
      simp only [List.map_cons, List.mem_cons] at hmem
      rw [markCompleted_cons]
      rcases hmem with hji | hmem
      · subst hji
        obtain ⟨t, hget⟩ : ∃ t, subs.get? j = some t := by
          rw [List.get?_eq_getElem?, List.getElem?_eq_getElem hlt]; exact ⟨_, rfl⟩
        rw [hget]
        exact markCompleted_keeps_completed rest _ j (subComplete t r)
          (by rw [List.getElem?_set_eq_of_lt _ hlt]) (by simp [subComplete])
      · have hsl : (match subs.get? i with
            | some s => subs.set i (subComplete s r)
            | none => subs).length = subs.length := by split <;> simp
        exact ih _ j (by rw [hsl]; exact hlt) hmem

/-! ### C1 — task status monotonicity -/

/-- C1 counterexample: the claim quantifies over every sequence of the listed
operations, but `Task.start` is an unguarded setter: calling `complete()` and
then `start()` on the same task moves its status from `completed` back to
`in_progress`, so a completed task does later become in_progress. -/
theorem c1_completed_task_restarts :
    ((mkTask "write the report").complete (some "done")).status = TaskStatus.completed ∧
    (((mkTask "write the report").complete (some "done")).start).status =
      TaskStatus.inProgress :=
  ⟨rfl, rfl⟩

/-- C1 amended: the setters are unguarded, so monotonicity holds only for
sequences in which each operation fires from its intended source status
(`start` from pending, `complete` from pending or in_progress — covering
automatic parent-completion — and `fail` from in_progress). Along every such
sequence the status rank never decreases, and a completed task (from which no
listed operation validly fires) stays completed. -/
theorem c1_guarded_monotonicity :
    ∀ (ops : List TaskOp) (t : TaskRec), ValidSeq t ops →
      statusRank t.status ≤ statusRank (applyOps t ops).status ∧
      (t.status = TaskStatus.completed → (applyOps t ops).status = TaskStatus.completed) := by
  intro ops
  induction ops with
  | nil => intro t _; exact ⟨Nat.le_refl _, fun h => h⟩
  | cons op ops ih =>
      intro t hv
      obtain ⟨hok, hrest⟩ := hv
      have ihh := ih (applyOp t op) hrest
      refine ⟨Nat.le_trans (statusRank_le_applyOp t op hok) ihh.1, ?_⟩
      intro hc
      exact absurd hc (opOk_not_completed t op hok)

/-- C1 witness: a concrete valid sequence (start from pending, then complete
from in_progress) along which the rank advances. -/
theorem c1_guarded_monotonicity_witness :
    ValidSeq (mkTask "write the report") [TaskOp.start, TaskOp.complete (some "done")] ∧
    statusRank (mkTask "write the report").status ≤
      statusRank (applyOps (mkTask "write the report")
        [TaskOp.start, TaskOp.complete (some "done")]).status :=
  ⟨⟨rfl, Or.inr rfl, trivial⟩,
   (c1_guarded_monotonicity [TaskOp.start, TaskOp.complete (some "done")]
     (mkTask "write the report") ⟨rfl, Or.inr rfl, trivial⟩).1⟩

/-! ### C5 — event-driven parent auto-completion -/

/-- C5: completing the subtasks of a complex task in any order (an injective
sequence of child-completion events covering every child, on a task none of
whose children is already completed) sets the parent's status to `completed`,
and after any proper prefix of those events — i.e. while at least one subtask
is still not completed — the parent's status is unchanged. The check is
event-driven: it runs inside each child's `complete()` call. -/
theorem c5_parent_completes_on_last_child :
    ∀ (p : ParentTask) (order : List (Nat × Option String)),
      p.subtasks ≠ [] →
      (∀ s ∈ p.subtasks, s.status ≠ TaskStatus.completed) →
      (∀ x ∈ order, x.1 < p.subtasks.length) →
      (order.map Prod.fst).Nodup →
      (∀ j, j < p.subtasks.length → j ∈ order.map Prod.fst) →
      (completeChildren p order).status = TaskStatus.completed ∧
      (∀ pre, pre <+: order → pre ≠ order →
        (completeChildren p pre).status = p.status) := by
  intro p order hne hnc hbound hnodup hcover
  constructor
  · rw [completeChildren_status]
    have horder : order ≠ [] := by
      intro h0
      have hlen : 0 < p.subtasks.length := List.length_pos.mpr hne
      have := hcover 0 hlen
      rw [h0] at this
      simp at this
    have hall : (markCompleted p.subtasks order).all
        (fun s => s.status == TaskStatus.completed) = true := by
      rw [List.all_eq_true]
      intro s hs
      obtain ⟨j, hj⟩ := List.get?_of_mem hs
      rw [List.get?_eq_getElem?] at hj
      have hjlt : j < (markCompleted p.subtasks order).length := by
        by_contra hge
        rw [List.getElem?_eq_none (Nat.le_of_not_lt hge)] at hj
        exact Option.noConfusion hj
      rw [markCompleted_length] at hjlt
      obtain ⟨s', hs', hc'⟩ := markCompleted_sets_completed order p.subtasks j hjlt
        (hcover j hjlt)
      rw [hj] at hs'
      have : s = s' := Option.some.inj hs'
      subst this
      simp [hc']
    rw [if_pos ⟨horder, hall⟩]
  · intro pre hpre hneq
    obtain ⟨suf, hsuf⟩ := hpre
    have hsufne : suf ≠ [] := by
      intro h0
      rw [h0, List.append_nil] at hsuf
      exact hneq hsuf
    obtain ⟨⟨i0, r0⟩, suf', hsuf'⟩ := List.exists_cons_of_ne_nil hsufne
    have hi0order : (i0, r0) ∈ order := by
      rw [← hsuf, hsuf']
      exact List.mem_append_right _ (List.mem_cons_self _ _)
    have hi0lt : i0 < p.subtasks.length := hbound _ hi0order
    have hi0pre : i0 ∉ pre.map Prod.fst := by
      intro hmem
      have hnd := hnodup
      rw [← hsuf, hsuf', List.map_append, List.nodup_append] at hnd
      exact hnd.2.2 hmem (by simp)
    rw [completeChildren_status]
    have hnotall : ¬ ((markCompleted p.subtasks pre).all
        (fun s => s.status == TaskStatus.completed) = true) := by
      intro hall
      obtain ⟨s0, hs0⟩ : ∃ s0, p.subtasks[i0]? = some s0 := by
        rw [List.getElem?_eq_getElem hi0lt]; exact ⟨_, rfl⟩
      have hs0mem : s0 ∈ p.subtasks := List.getElem?_mem hs0
      have hs0nc : s0.status ≠ TaskStatus.completed := hnc s0 hs0mem
      have hkeep : (markCompleted p.subtasks pre)[i0]? = some s0 := by
        rw [markCompleted_get_not_mem pre p.subtasks i0 hi0pre]
        exact hs0
      have hs0mark : s0 ∈ markCompleted p.subtasks pre := List.getElem?_mem hkeep
      have := List.all_eq_true.mp hall s0 hs0mark
      simp at this
      exact hs0nc this
    rw [if_neg (fun h => hnotall h.2)]

/-- C5 witness: a three-subtask complex task completed in definition order; the
parent flips exactly on the third completion and is untouched after the first
two. -/
theorem c5_parent_completes_on_last_child_witness :
    (completeChildren pDemo orderDemo).status = TaskStatus.completed ∧
    (completeChildren pDemo preDemo).status = pDemo.status :=
  ⟨(c5_parent_completes_on_last_child pDemo orderDemo (by decide) (by decide) (by decide)
      (by decide) (by decide)).1,
   (c5_parent_completes_on_last_child pDemo orderDemo (by decide) (by decide) (by decide)
      (by decide) (by decide)).2 preDemo (by decide) (by decide)⟩

/-! ### Lemmas about the memory ledger -/

lemma addMessage_eq (est : String → List ToolCall → Nat) (mem : Memory)
    (role content : String) (toolCalls : List ToolCall)
    (toolCallId taskId : Option String) :
    Memory.addMessage est mem role content toolCalls toolCallId taskId =
      (evictLoop mem.maxMessages mem.maxTokens (est content toolCalls)
        (mem.messages ++ [newMsg est role content toolCalls toolCallId taskId])
        mem.totalInputTokens).map
        (fun out => ({ mem with messages := out.1, totalInputTokens := out.2 },
          newMsg est role content toolCalls toolCallId taskId)) := by
  simp only [Memory.addMessage, newMsg]
  cases h : evictLoop mem.maxMessages mem.maxTokens (est content toolCalls)
      (mem.messages ++
        [{ role := role, content := content, toolCalls := toolCalls,
           toolCallId := toolCallId, taskId := taskId, inputTokens := 0,
           outputTokens := 0, inputTokensEstimate := est content toolCalls,
           inputTokensTotal := 0 }]) mem.totalInputTokens with
  | none => rfl
  | some out => cases out; rfl

lemma evictLoop_spec (maxM maxT estNew : Nat) :
    ∀ (msgs : List Msg) (total : Int) (out : List Msg × Int),
      evictLoop maxM maxT estNew msgs total = some out →
      ∃ k, k ≤ msgs.length ∧ out.1 = msgs.drop k ∧
        out.2 = total - (((msgs.take k).map Msg.inputTokens).sum) ∧
        out.1.length ≤ maxM ∧ out.2 + (estNew : Int) ≤ (maxT : Int) ∧
        ∀ j, j < k → maxM < (msgs.drop j).length ∨
          (maxT : Int) <
            (total - (((msgs.take j).map Msg.inputTokens).sum)) + (estNew : Int) := by
  intro msgs
  induction msgs with
  | nil =>
      intro total out h
      simp only [evictLoop] at h
      split at h
      · exact Option.noConfusion h
      · next hcond =>
          push_neg at hcond
          obtain ⟨h1, h2⟩ := hcond
          have hout : out = ([], total) := (Option.some.inj h).symm
          subst hout
          exact ⟨0, Nat.le_refl _, rfl, by simp, by simp at h1; simp [h1], by simpa using h2,
            fun j hj => absurd hj (Nat.not_lt_zero j)⟩
  | cons m rest ih =>
      intro total out h
      simp only [evictLoop] at h
      split at h
      · next hcond =>
          obtain ⟨k, hk, h1, h2, h3, h4, h5⟩ := ih (total - m.inputTokens) out h
          refine ⟨k + 1, Nat.succ_le_succ hk, ?_, ?_, h3, h4, ?_⟩
          · simpa [List.drop_succ_cons] using h1
          · rw [h2, List.take_succ_cons, List.map_cons, List.sum_cons, sub_sub]
          · intro j hj
            cases j with
            | zero =>
                simpa using hcond
            | succ j' =>
                have hprev := h5 j' (Nat.lt_of_succ_lt_succ hj)
                rcases hprev with hl | hr
                · exact Or.inl (by simpa [List.drop_succ_cons] using hl)
                · refine Or.inr ?_
                  rw [List.take_succ_cons, List.map_cons, List.sum_cons]
                  rw [sub_sub] at hr
                  exact hr
      · next hcond =>
          push_neg at hcond
          obtain ⟨h1, h2⟩ := hcond
          have hout : out = (m :: rest, total) := (Option.some.inj h).symm
          subst hout
          exact ⟨0, Nat.zero_le _, rfl, by simp, by simpa using h1, by simpa using h2,
            fun j hj => absurd hj (Nat.not_lt_zero j)⟩

lemma evictLoop_none (maxM maxT estNew : Nat) :
    ∀ (msgs : List Msg) (total : Int),
      (∀ m ∈ msgs, 0 ≤ m.inputTokens) →
      (maxT : Int) < total - ((msgs.map Msg.inputTokens).sum) + (estNew : Int) →
      evictLoop maxM maxT estNew msgs total = none := by
  intro msgs
  induction msgs with
  | nil =>
      intro total _ hover
      simp only [evictLoop]
      rw [if_pos (Or.inr (by simpa using hover))]
  | cons m rest ih =>
      intro total hnn hover
      have hsum : (0 : Int) ≤ ((m :: rest).map Msg.inputTokens).sum := by
        apply List.sum_nonneg
        intro x hx
        simp only [List.mem_map] at hx
        obtain ⟨y, hy, hxy⟩ := hx
        rw [← hxy]
        exact hnn y hy
      have hhead : (maxT : Int) < total + (estNew : Int) := by
        have : total - ((m :: rest).map Msg.inputTokens).sum ≤ total := by linarith
        linarith [hover]
      simp only [evictLoop]
      rw [if_pos (Or.inr hhead)]
      apply ih
      · intro x hx; exact hnn x (List.mem_cons_of_mem m hx)
      · rw [List.map_cons, List.sum_cons] at hover
        have : total - m.inputTokens - (rest.map Msg.inputTokens).sum =
            total - (m.inputTokens + (rest.map Msg.inputTokens).sum) := sub_sub _ _ _
        rw [this]
        exact hover

lemma addResponseMessage_eq (est : String → List ToolCall → Nat) (mem : Memory)
    (role : String) (response : ProviderResponse) (toolCallId taskId : Option String) :
    Memory.addResponseMessage est mem role response toolCallId taskId =
      (Memory.addMessage est mem role response.message response.functionCalls
        toolCallId taskId).map
        (fun p =>
          let m2 : Msg :=
            { p.2 with inputTokensTotal := response.inputTokens,
                       inputTokens := response.inputTokens - p.1.totalInputTokens,
                       outputTokens := response.outputTokens }
          let mm : Memory :=
            { p.1 with
                messages :=
                  if p.1.messages = [] then p.1.messages
                  else p.1.messages.dropLast ++ [m2],
                totalInputTokens := p.1.totalInputTokens + response.inputTokens,
                totalOutputTokens := p.1.totalOutputTokens + response.outputTokens }
          (mm, m2)) := by
  simp only [Memory.addResponseMessage]
  cases Memory.addMessage est mem role response.message response.functionCalls
      toolCallId taskId with
  | none => rfl
  | some p => cases p; rfl

/-! ### C3 — add_message appends then evicts from the front -/

/-- C3: whenever `add_message` returns (it can also raise, see C9), the new
message was appended at the end with actual `input_tokens` 0 and the computed
estimate; the resulting history is the appended history with some front prefix
of `k` messages evicted; the running total decreased by exactly the sum of the
evicted messages' recorded *actual* `input_tokens` (0 for never-finalized
ones), not their estimates; before each of the `k` evictions the loop condition
(count exceeds `max_messages`, or running total plus the new message's estimate
exceeds `max_tokens`) held, and it no longer holds at the end. -/
theorem c3_add_message_append_evict :
    ∀ (est : String → List ToolCall → Nat) (mem : Memory) (role content : String)
      (toolCalls : List ToolCall) (toolCallId taskId : Option String)
      (mem' : Memory) (msg : Msg),
      Memory.addMessage est mem role content toolCalls toolCallId taskId =
        some (mem', msg) →
      msg.inputTokens = 0 ∧
      msg.inputTokensEstimate = est content toolCalls ∧
      ∃ k, k ≤ (mem.messages ++ [msg]).length ∧
        mem'.messages = (mem.messages ++ [msg]).drop k ∧
        mem'.totalInputTokens =
          mem.totalInputTokens -
            ((((mem.messages ++ [msg]).take k).map Msg.inputTokens).sum) ∧
        mem'.messages.length ≤ mem.maxMessages ∧
        mem'.totalInputTokens + (msg.inputTokensEstimate : Int) ≤ (mem.maxTokens : Int) ∧
        ∀ j, j < k → mem.maxMessages < ((mem.messages ++ [msg]).drop j).length ∨
          (mem.maxTokens : Int) <
            (mem.totalInputTokens -
              ((((mem.messages ++ [msg]).take j).map Msg.inputTokens).sum))
              + (msg.inputTokensEstimate : Int) := by
  intro est mem role content toolCalls toolCallId taskId mem' msg h
  rw [addMessage_eq] at h
  rw [Option.map_eq_some'] at h
  obtain ⟨out, hev, hout⟩ := h
  have hmem' : mem' = { mem with messages := out.1, totalInputTokens := out.2 } :=
    congrArg Prod.fst hout |>.symm
  have hmsg : msg = newMsg est role content toolCalls toolCallId taskId :=
    congrArg Prod.snd hout |>.symm
  obtain ⟨k, hk, h1, h2, h3, h4, h5⟩ := evictLoop_spec mem.maxMessages mem.maxTokens
    (est content toolCalls) _ _ _ hev
  subst hmem' hmsg
  refine ⟨rfl, rfl, k, ?_, h1, ?_, h3, h4, ?_⟩
  · simpa using hk
  · simpa using h2
  · intro j hj
    simpa using h5 j hj

/-- C3 witness: a ledger at its two-message cap evicts exactly the front
message on the next append. -/
theorem c3_add_message_append_evict_witness :
    Memory.addMessage estOne memW "user" "hi" [] none none =
      some (c3memAfter, c3msgAfter) ∧
    c3msgAfter.inputTokens = 0 ∧
    c3msgAfter.inputTokensEstimate = estOne "hi" [] :=
  ⟨rfl,
   (c3_add_message_append_evict estOne memW "user" "hi" [] none none c3memAfter
     c3msgAfter rfl).1,
   (c3_add_message_append_evict estOne memW "user" "hi" [] none none c3memAfter
     c3msgAfter rfl).2.1⟩

/-! ### C9 — add_message is not total -/

/-- C9: when even evicting every message leaves the running total plus the new
message's estimate above `max_tokens` (with non-negative recorded actuals, as
every reachable ledger has), the pruning loop empties the history and pops from
an empty list: `add_message` raises `IndexError` instead of returning. -/
theorem c9_add_message_overflow_raises :
    ∀ (est : String → List ToolCall → Nat) (mem : Memory) (role content : String)
      (toolCalls : List ToolCall) (toolCallId taskId : Option String),
      (∀ m ∈ mem.messages, 0 ≤ m.inputTokens) →
      (mem.maxTokens : Int) <
        mem.totalInputTokens - ((mem.messages.map Msg.inputTokens).sum)
          + (est content toolCalls : Int) →
      Memory.addMessage est mem role content toolCalls toolCallId taskId = none := by
  intro est mem role content toolCalls toolCallId taskId hnn hover
  rw [addMessage_eq]
  rw [evictLoop_none mem.maxMessages mem.maxTokens (est content toolCalls) _ _ ?_ ?_]
  · rfl
  · intro m hm
    rcases List.mem_append.mp hm with hmem | hnew
    · exact hnn m hmem
    · rw [List.mem_singleton.mp hnew]
      exact le_refl 0
  · rw [List.map_append, List.sum_append]
    simpa [newMsg] using hover

/-- C9 witness: a fresh gpt-3.5-turbo ledger receiving a single message whose
estimate (20000) exceeds the 16385-token context raises. -/
theorem c9_add_message_overflow_raises_witness :
    (∀ m ∈ memGpt35.messages, 0 ≤ m.inputTokens) ∧
    ((memGpt35.maxTokens : Int) <
      memGpt35.totalInputTokens - ((memGpt35.messages.map Msg.inputTokens).sum)
        + (estBig "hello" [] : Int)) ∧
    Memory.addMessage estBig memGpt35 "user" "hello" [] none none = none :=
  ⟨by simp [memGpt35], by decide,
   c9_add_message_overflow_raises estBig memGpt35 "user" "hello" [] none none
     (by simp [memGpt35]) (by decide)⟩

/-! ### C4 — reconciliation against the provider's actual counts -/

/-- C4 counterexample: on a `max_messages = 1` ledger whose single message is
finalized at 10 actual input tokens (`c4mem1`), a second
`add_response_message` reporting 25 input tokens first evicts that message
(dropping the running total from 10 to 0), then stores
`input_tokens = 25 - 0 = 25` and `total_input_tokens = 25` — not the
`25 - 10 = 15` and `10 + 25 = 35` the claim predicts from the total *before*
the call. -/
theorem c4_reconcile_uses_post_eviction_total :
    c4mem1.totalInputTokens = 10 ∧
    c4run2.map (fun p => p.2.inputTokens) = some 25 ∧
    c4run2.map (fun p => p.1.totalInputTokens) = some 25 ∧
    respTwentyFive.inputTokens - c4mem1.totalInputTokens = 15 ∧
    c4mem1.totalInputTokens + respTwentyFive.inputTokens = 35 ∧
    (25 : Int) ≠ 15 ∧ (25 : Int) ≠ 35 :=
  ⟨rfl, rfl, rfl, rfl, rfl, by decide, by decide⟩

/-- C4 amended: `add_response_message` stores
`input_tokens_total = response.input_tokens` and
`input_tokens = response.input_tokens - total_input_tokens` where the running
total is read *after* the append's evictions (it equals the pre-call total
exactly when no eviction occurred), then sets `total_input_tokens` to that
post-eviction total plus `response.input_tokens` and increases
`total_output_tokens` by `response.output_tokens`. -/
theorem c4_reconcile_amended :
    ∀ (est : String → List ToolCall → Nat) (mem : Memory) (role : String)
      (response : ProviderResponse) (toolCallId taskId : Option String)
      (mem1 : Memory) (msg1 : Msg) (mem2 : Memory) (msg2 : Msg),
      Memory.addMessage est mem role response.message response.functionCalls
        toolCallId taskId = some (mem1, msg1) →
      Memory.addResponseMessage est mem role response toolCallId taskId =
        some (mem2, msg2) →
      msg2.inputTokensTotal = response.inputTokens ∧
      msg2.inputTokens = response.inputTokens - mem1.totalInputTokens ∧
      mem2.totalInputTokens = mem1.totalInputTokens + response.inputTokens ∧
      msg2.outputTokens = response.outputTokens ∧
      mem2.totalOutputTokens = mem1.totalOutputTokens + response.outputTokens ∧
      (mem.messages.length + 1 ≤ mem.maxMessages →
        mem.totalInputTokens + (est response.message response.functionCalls : Int) ≤
          (mem.maxTokens : Int) →
        mem1.totalInputTokens = mem.totalInputTokens) := by
  intro est mem role response toolCallId taskId mem1 msg1 mem2 msg2 hadd hresp
  rw [addResponseMessage_eq, hadd, Option.map_some'] at hresp
  have hp := Option.some.inj hresp
  simp only at hp
  have hmem2 := (congrArg Prod.fst hp).symm
  have hmsg2 := (congrArg Prod.snd hp).symm
  simp only at hmem2 hmsg2
  subst hmem2 hmsg2
  refine ⟨rfl, rfl, rfl, rfl, rfl, ?_⟩
  intro hcount htok
  rw [addMessage_eq, Option.map_eq_some'] at hadd
  obtain ⟨out, hev, hout⟩ := hadd
  have hm1 : mem1 = { mem with messages := out.1, totalInputTokens := out.2 } :=
    (congrArg Prod.fst hout).symm
  obtain ⟨m0, rest0, hL⟩ := List.exists_cons_of_ne_nil
    (by simp :
      mem.messages ++ [newMsg est role response.message response.functionCalls
        toolCallId taskId] ≠ [])
  rw [hL] at hev
  simp only [evictLoop] at hev
  have hcond : ¬ (mem.maxMessages < (m0 :: rest0).length ∨
      (mem.maxTokens : Int) < mem.totalInputTokens +
        ((newMsg est role response.message response.functionCalls toolCallId
          taskId).inputTokensEstimate : Int)) := by
    push_neg
    constructor
    · have hlen : (m0 :: rest0).length = mem.messages.length + 1 := by
        rw [← hL]; simp
      rw [hlen]; exact hcount
    · simpa [newMsg] using htok
  rw [if_neg (by simpa [newMsg] using hcond)] at hev
  have hout2 : out = (m0 :: rest0, mem.totalInputTokens) := (Option.some.inj hev).symm
  rw [hm1, hout2]

/-- C4 witness: on a fresh ledger no eviction occurs, and the stored marginal
tokens and running total match the amended description. -/
theorem c4_reconcile_amended_witness :
    Memory.addMessage est0 memGpt35 "assistant" respTen.message respTen.functionCalls
      none none = some (w4mem1, w4msg1) ∧
    Memory.addResponseMessage est0 memGpt35 "assistant" respTen none none =
      some (w4mem2, w4msg2) ∧
    w4msg2.inputTokens = respTen.inputTokens - w4mem1.totalInputTokens ∧
    w4mem2.totalInputTokens = w4mem1.totalInputTokens + respTen.inputTokens :=
  ⟨rfl, rfl,
   (c4_reconcile_amended est0 memGpt35 "assistant" respTen none none w4mem1 w4msg1
     w4mem2 w4msg2 rfl rfl).2.1,
   (c4_reconcile_amended est0 memGpt35 "assistant" respTen none none w4mem1 w4msg1
     w4mem2 w4msg2 rfl rfl).2.2.1⟩

/-! ### C10 — negative marginal tokens and negative cost -/

/-- C10: two `add_response_message` calls on a fresh ledger, the second
reporting 4 input tokens after the first reported 10, store
`input_tokens = 4 - 10 = -6` on the second message, and `get_message_cost`
for it is the negative `-9/1000000` dollars; nothing guards these values. -/
theorem c10_negative_marginal_tokens_cost :
    c10run = some (c10mem, c10msg) ∧
    c10msg.inputTokens = -6 ∧
    c10msg.inputTokens < 0 ∧
    Memory.getMessageCost c10mem c10msg < 0 := by
  refine ⟨rfl, rfl, by decide, ?_⟩
  have h1 : c10mem.inputCostPerMillion = 1.5 := rfl
  have h2 : c10mem.outputCostPerMillion = 2.0 := rfl
  have h3 : c10msg.inputTokens = -6 := rfl
  have h4 : c10msg.outputTokens = 0 := rfl
  unfold Memory.getMessageCost
  rw [h1, h2, h3, h4]
  norm_num

/-! ### Lemmas about the chat loop -/

lemma processToolCalls_cons (est : String → List ToolCall → Nat)
    (tools : List (String × (String → String))) (mem : Memory) (c : ToolCall)
    (cs : List ToolCall) :
    processToolCalls est tools true mem (c :: cs) =
      (Memory.addMessage est mem "tool" (dispatchCall tools c) [] c.id none).bind
        (fun p => processToolCalls est tools true p.1 cs) := by
  cases h : Memory.addMessage est mem "tool" (dispatchCall tools c) [] c.id none with
  | none => simp [processToolCalls, h]
  | some p => simp [processToolCalls, h]

lemma addMessage_untagged (est : String → List ToolCall → Nat) (mem : Memory)
    (role content : String) (toolCalls : List ToolCall) (toolCallId : Option String)
    (mem' : Memory) (msg : Msg) :
    Memory.addMessage est mem role content toolCalls toolCallId none = some (mem', msg) →
    (∀ x ∈ mem.messages, x.taskId = none) →
    (∀ x ∈ mem'.messages, x.taskId = none) ∧ msg.taskId = none := by
  intro h hinv
  rw [addMessage_eq, Option.map_eq_some'] at h
  obtain ⟨out, hev, hout⟩ := h
  have hmem' := (congrArg Prod.fst hout).symm
  have hmsg := (congrArg Prod.snd hout).symm
  simp only at hmem' hmsg
  subst hmem' hmsg
  obtain ⟨k, _, h1, _⟩ := evictLoop_spec _ _ _ _ _ _ hev
  refine ⟨?_, rfl⟩
  intro x hx
  simp only at hx
  rw [h1] at hx
  rcases List.mem_append.mp (List.drop_subset k _ hx) with hold | hnew
  · exact hinv x hold
  · rw [List.mem_singleton.mp hnew]
    rfl

lemma addResponseMessage_untagged (est : String → List ToolCall → Nat) (mem : Memory)
    (role : String) (response : ProviderResponse) (toolCallId : Option String)
    (mem2 : Memory) (msg2 : Msg) :
    Memory.addResponseMessage est mem role response toolCallId none = some (mem2, msg2) →
    (∀ x ∈ mem.messages, x.taskId = none) →
    (∀ x ∈ mem2.messages, x.taskId = none) ∧ msg2.taskId = none := by
  intro h hinv
  rw [addResponseMessage_eq, Option.map_eq_some'] at h
  obtain ⟨p, hadd, hout⟩ := h
  obtain ⟨hinv1, htag1⟩ := addMessage_untagged est mem role response.message
    response.functionCalls toolCallId p.1 p.2 hadd hinv
  have hmem2 := (congrArg Prod.fst hout).symm
  have hmsg2 := (congrArg Prod.snd hout).symm
  simp only at hmem2 hmsg2
  subst hmem2 hmsg2
  refine ⟨?_, htag1⟩
  intro x hx
  simp only at hx
  split at hx
  · exact hinv1 x hx
  · rcases List.mem_append.mp hx with hdrop | hnew
    · exact hinv1 x (List.dropLast_subset _ hdrop)
    · rw [List.mem_singleton.mp hnew]
      exact htag1

lemma processToolCalls_untagged (est : String → List ToolCall → Nat)
    (tools : List (String × (String → String))) :
    ∀ (cs : List ToolCall) (mem mem' : Memory),
      processToolCalls est tools true mem cs = some mem' →
      (∀ x ∈ mem.messages, x.taskId = none) →
      (∀ x ∈ mem'.messages, x.taskId = none) := by
  intro cs
  induction cs with
  | nil =>
      intro mem mem' h hinv
      have : mem = mem' := Option.some.inj h
      subst this
      exact hinv
  | cons c cs ih =>
      intro mem mem' h hinv
      rw [processToolCalls_cons, Option.bind_eq_some] at h
      obtain ⟨p, hadd, hrest⟩ := h
      obtain ⟨hinv1, _⟩ := addMessage_untagged est mem "tool" (dispatchCall tools c)
        [] c.id p.1 p.2 (by rw [hadd]) hinv
      exact ih p.1 mem' hrest hinv1

lemma chatLoop_untagged (est : String → List ToolCall → Nat)
    (tools : List (String × (String → String))) :
    ∀ (script : List ProviderResponse) (mem : Memory) (reply : String) (mem' : Memory),
      chatLoop est tools true script mem = some (reply, mem') →
      (∀ x ∈ mem.messages, x.taskId = none) →
      (∀ x ∈ mem'.messages, x.taskId = none) := by
  intro script
  induction script with
  | nil => intro mem reply mem' h _; exact absurd h (by simp [chatLoop])
  | cons resp rest ih =>
      intro mem reply mem' h hinv
      simp only [chatLoop, if_true] at h
      cases haddr : Memory.addResponseMessage est mem "assistant" resp none none with
      | none => rw [haddr] at h; exact absurd h (by simp)
      | some p =>
          rw [haddr] at h
          simp only [Option.map_some'] at h
          obtain ⟨hinvp, _⟩ := addResponseMessage_untagged est mem "assistant" resp none
            p.1 p.2 (by rw [haddr]) hinv
          by_cases hfc : resp.functionCalls = []
          · rw [if_pos hfc] at h
            have hpair := Option.some.inj h
            have : p.1 = mem' := congrArg Prod.snd hpair
            subst this
            exact hinvp
          · rw [if_neg hfc] at h
            cases hproc : processToolCalls est tools true p.1 resp.functionCalls with
            | none => rw [hproc] at h; exact absurd h (by simp)
            | some m2 =>
                rw [hproc] at h
                exact ih m2 reply mem' h
                  (processToolCalls_untagged est tools resp.functionCalls p.1 m2 hproc hinvp)

lemma getMessagesForTask_untagged (mem : Memory)
    (hinv : ∀ x ∈ mem.messages, x.taskId = none) (taskId : String) :
    Memory.getMessagesForTask mem taskId =
      mem.messages.filter (fun m => m.role == "system") := by
  unfold Memory.getMessagesForTask
  apply List.filter_congr
  intro x hx
  rw [hinv x hx]
  rfl

/-! ### C2 — task execution does not tag memory with the task id -/

/-- C2 counterexample: executing a task with id "t1" through `Task.execute` on
a fresh ledger records the synthesized user prompt and the assistant reply, but
both carry `task_id = None` — `Agent.chat` passes no task id — so
`get_messages_for_task("t1")` afterwards returns no message at all, not the
exchange the claim promises. -/
theorem c2_execute_messages_untagged :
    c2run.map (fun p => p.1) = some "done" ∧
    c2run.map (fun p => p.2.messages.length) = some 2 ∧
    c2run.map (fun p => p.2.messages.map Msg.taskId) = some [none, none] ∧
    c2run.map (fun p => (Memory.getMessagesForTask p.2 "t1").length) = some 0 :=
  ⟨rfl, rfl, rfl, rfl⟩

/-- C2 amended: every message `Agent.chat` (and hence `Task.execute`) adds is
recorded with `task_id = None`, so on any ledger whose messages are all
untagged, `get_messages_for_task(task_id)` after the execution returns exactly
the system messages — never the task's own exchange. -/
theorem c2_chat_adds_no_task_id :
    ∀ (est : String → List ToolCall → Nat) (tools : List (String × (String → String)))
      (supportsTools : Bool) (script : List ProviderResponse) (mem : Memory)
      (userMessage reply : String) (mem' : Memory),
      (∀ x ∈ mem.messages, x.taskId = none) →
      chat est tools supportsTools script mem userMessage true = some (reply, mem') →
      (∀ x ∈ mem'.messages, x.taskId = none) ∧
      (∀ taskId, Memory.getMessagesForTask mem' taskId =
        mem'.messages.filter (fun m => m.role == "system")) := by
  intro est tools supportsTools script mem userMessage reply mem' hinv h
  simp only [chat, if_true] at h
  cases hadd : Memory.addMessage est mem "user" userMessage [] none none with
  | none => rw [hadd] at h; exact absurd h (by simp)
  | some p =>
      rw [hadd] at h
      simp only [Option.map_some'] at h
      obtain ⟨hinv1, _⟩ := addMessage_untagged est mem "user" userMessage [] none
        p.1 p.2 hadd hinv
      have hinv' : ∀ x ∈ mem'.messages, x.taskId = none := by
        by_cases htools : (!tools.isEmpty && supportsTools) = true
        · rw [if_pos htools] at h
          exact chatLoop_untagged est tools script p.1 reply mem' h hinv1
        · rw [if_neg htools] at h
          cases script with
          | nil => exact absurd h (by simp)
          | cons resp rest =>
              simp only [if_true] at h
              cases haddr : Memory.addResponseMessage est p.1 "assistant" resp none none with
              | none => rw [haddr] at h; exact absurd h (by simp)
              | some q =>
                  rw [haddr] at h
                  simp only [Option.map_some'] at h
                  have hq := Option.some.inj h
                  have : q.1 = mem' := congrArg Prod.snd hq
                  subst this
                  exact (addResponseMessage_untagged est p.1 "assistant" resp none
                    q.1 q.2 (by rw [haddr]) hinv1).1
      exact ⟨hinv', fun taskId => getMessagesForTask_untagged mem' hinv' taskId⟩

/-- C2 witness for the amended claim: a concrete chat run on a fresh ledger,
after which per-task filtering returns only system messages (here none). -/
theorem c2_chat_adds_no_task_id_witness :
    (∀ x ∈ memGpt35.messages, x.taskId = none) ∧
    chat est0 [] true scriptDone memGpt35 "hi" true = some ("done", c2memAfter) ∧
    Memory.getMessagesForTask c2memAfter "t1" =
      c2memAfter.messages.filter (fun m => m.role == "system") :=
  ⟨by simp [memGpt35], rfl,
   (c2_chat_adds_no_task_id est0 [] true scriptDone memGpt35 "hi" "done" c2memAfter
     (by simp [memGpt35]) rfl).2 "t1"⟩

/-! ### C8 — tool-not-found is non-fatal -/

/-- C8: a requested call whose function name is absent from the bound subset is
dispatched to the stringified empty result `"None"` (Python's `str(None)`)
rather than raising; the round appends a `tool`-role message carrying that
result and the originating call id, the calls before and after it in the same
round are still dispatched in request order, and the conversation loop then
proceeds to the next provider round exactly as it would with resolvable
calls. -/
theorem c8_tool_not_found_nonfatal :
    ∀ (est : String → List ToolCall → Nat) (tools : List (String × (String → String)))
      (mem : Memory) (cs1 cs2 : List ToolCall) (c : ToolCall),
      lookupTool tools c.name = none →
      (dispatchCall tools c = "None") ∧
      (processToolCalls est tools true mem (cs1 ++ c :: cs2) =
        (processToolCalls est tools true mem cs1).bind (fun m1 =>
          (Memory.addMessage est m1 "tool" "None" [] c.id none).bind (fun p =>
            processToolCalls est tools true p.1 cs2))) ∧
      (∀ (resp : ProviderResponse) (rest : List ProviderResponse) (mem0 : Memory),
        resp.functionCalls ≠ [] →
        chatLoop est tools true (resp :: rest) mem0 =
          (Memory.addResponseMessage est mem0 "assistant" resp none none).bind (fun p =>
            (processToolCalls est tools true p.1 resp.functionCalls).bind (fun m2 =>
              chatLoop est tools true rest m2))) := by
  intro est tools mem cs1 cs2 c hmiss
  have hdisp : dispatchCall tools c = "None" := by
    unfold dispatchCall
    rw [hmiss]
  refine ⟨hdisp, ?_, ?_⟩
  · induction cs1 generalizing mem with
    | nil =>
        rw [List.nil_append, processToolCalls_cons, hdisp]
        rfl
    | cons a t ih =>
        rw [List.cons_append, processToolCalls_cons, processToolCalls_cons,
          Option.bind_assoc]
        cases ha : Memory.addMessage est mem "tool" (dispatchCall tools a) [] a.id none with
        | none => rfl
        | some p => simpa using ih p.1
  · intro resp rest mem0 hne
    simp only [chatLoop, if_true]
    cases haddr : Memory.addResponseMessage est mem0 "assistant" resp none none with
    | none => rfl
    | some p =>
        simp only [Option.map_some', Option.some_bind]
        rw [if_neg hne]
        cases hproc : processToolCalls est tools true p.1 resp.functionCalls with
        | none => rfl
        | some m2 => rfl

/-- C8 witness: a round of three requested calls whose middle call names a tool
absent from the bound subset; it contributes exactly a `"None"` tool message
with its call id, and both neighbours are still dispatched. -/
theorem c8_tool_not_found_nonfatal_witness :
    dispatchCall demoTools missingCall = "None" ∧
    processToolCalls est0 demoTools true memGpt35 ([foundCallA] ++ missingCall :: [foundCallB]) =
      (processToolCalls est0 demoTools true memGpt35 [foundCallA]).bind (fun m1 =>
        (Memory.addMessage est0 m1 "tool" "None" [] missingCall.id none).bind (fun p =>
          processToolCalls est0 demoTools true p.1 [foundCallB])) :=
  ⟨(c8_tool_not_found_nonfatal est0 demoTools memGpt35 [foundCallA] [foundCallB]
      missingCall rfl).1,
   (c8_tool_not_found_nonfatal est0 demoTools memGpt35 [foundCallA] [foundCallB]
      missingCall rfl).2.1⟩


/-! ### C6 — the decomposition parser -/

lemma parseSubtasksStep_eq (subtasks : List String) (rawLine : String) :
    parseSubtasksStep subtasks rawLine = subtasks ++ (acceptedLineSpec rawLine).toList := by
  simp only [parseSubtasksStep, acceptedLineSpec]
  split
  · split <;> split <;> simp
  · simp

lemma foldl_parseSubtasksStep (lines : List String) :
    ∀ acc : List String,
      lines.foldl parseSubtasksStep acc = acc ++ lines.filterMap acceptedLineSpec := by
  induction lines with
  | nil => intro acc; simp
  | cons l rest ih =>
      intro acc
      rw [List.foldl_cons, parseSubtasksStep_eq, ih, List.filterMap_cons]
      cases acceptedLineSpec l with
      | none => simp
      | some v => simp

/-- C6: the parsing loop accepts a trimmed line as a subtask iff it starts with
a digit (stripping the leading "N." numbering) or with "-" (stripping the
dash) and is non-empty after stripping (`acceptedLineSpec` states exactly that
per-line rule, and the loop equals filtering the reply's lines through it, in
order); with at least one parsed subtask `decompose_task` creates a complex
task with those descriptions in parsed order, otherwise it falls back to a
single flat task; and the reply "1. Do X\n2. Do Y\n- Do Z\n\nNotes: ignore
this" yields exactly ["Do X", "Do Y", "Do Z"]. -/
theorem c6_decompose_parsing :
    (∀ response, parseSubtasks response =
      (pySplitLines (pyStrip response)).filterMap acceptedLineSpec) ∧
    (∀ desc response,
      (parseSubtasks response ≠ [] →
        decomposeTask desc response = mkComplexTask desc (parseSubtasks response)) ∧
      (parseSubtasks response = [] → decomposeTask desc response = mkFlatTask desc)) ∧
    parseSubtasks "1. Do X\n2. Do Y\n- Do Z\n\nNotes: ignore this" =
      ["Do X", "Do Y", "Do Z"] := by
  refine ⟨?_, ?_, ?_⟩
  · intro response
    unfold parseSubtasks
    rw [foldl_parseSubtasksStep]
    simp
  · intro desc response
    constructor
    · intro h
      simp only [decomposeTask]
      rw [if_pos h]
    · intro h
      simp only [decomposeTask]
      rw [h]
      simp
  · rfl

/-- C6 witness: a reply with no parseable lines falls back to a flat task, and
a numbered reply yields a complex task with the parsed description. -/
theorem c6_decompose_parsing_witness :
    decomposeTask "overall" "no usable steps here" = mkFlatTask "overall" ∧
    decomposeTask "overall" "1. Alpha" = mkComplexTask "overall" ["Alpha"] :=
  ⟨(c6_decompose_parsing.2.1 "overall" "no usable steps here").2 rfl,
   (c6_decompose_parsing.2.1 "overall" "1. Alpha").1 (by decide)⟩

/-! ### C7 — working-directory confinement -/

/-- C7: the confinement check compares rendered path strings with
`startswith` and no separator, so a path resolving *outside* the configured
root can still be accepted: with workingdir `/a/b`, the resolved path `/a/bc`
is not inside the root (`["a","b"]` is not a component prefix of
`["a","bc"]`), yet validation accepts it, because the string `/a/bc` starts
with the string `/a/b`. This contradicts the claim (and the function's own
docstring) that any path resolving outside the working directory is
rejected. -/
theorem c7_outside_path_accepted :
    validatePath ["a", "b"] ["a", "bc"] = (true, "") ∧
    ¬ (["a", "b"] <+: ["a", "bc"]) ∧
    (["a", "b"] : List String) ≠ ["a", "bc"] ∧
    strStartsWith (renderPath ["a", "bc"]) (renderPath ["a", "b"]) = true :=
  ⟨rfl, by decide, by decide, rfl⟩
